import Mathlib

/-
  Shallow embedding of the core runtime of the hgraph reactive time-series
  dataflow engine, together with proofs about the node scheduler, compute-node
  evaluation gating, the pull-generator node, the push-queue sender state,
  the TSD (time-series dict) output and the REF (reference) output.

  Sources embedded:
    - src/hg/_impl/_runtime/_node.py
        NodeImpl.eval, NodeSchedulerImpl, GeneratorNodeImpl,
        PythonPushQueueNodeImpl, _SenderReceiverState
    - src/src/hgraph/_impl/_types/_tsd.py
        PythonTimeSeriesDictOutput
    - src/src/hgraph/_impl/_types/_ref.py
        PythonTimeSeriesReference, PythonTimeSeriesReferenceOutput

  Logical time (Python datetime) is modelled as Nat; the sentinels MIN_DT and
  MAX_DT model datetime.min and datetime.max.  User values are modelled as Int.
-/

namespace HGraph

/-- Logical engine time (models Python datetime, totally ordered). -/
abbrev Time := Nat

/-- Sentinel before any real time (models MIN_DT = datetime.min). -/
def MIN_DT : Time := 0

/-- Sentinel meaning never (models MAX_DT = datetime.max). -/
def MAX_DT : Time := 2 ^ 63

/-- User-level values carried by time series. -/
abbrev Val := Int

/-- Replace the binding of key k in an association list, or append it;
models Python dict item assignment. -/
def upsert {α β : Type} [DecidableEq α] (k : α) (v : β) :
    List (α × β) → List (α × β)
  | [] => [(k, v)]
  | p :: ps => if p.1 = k then (k, v) :: ps else p :: upsert k v ps

/-- Remove the binding of key k from an association list;
models Python dict pop / del for a present key. -/
def eraseKey {α β : Type} [DecidableEq α] (k : α) :
    List (α × β) → List (α × β)
  | [] => []
  | p :: ps => if p.1 = k then ps else p :: eraseKey k ps

/-- Find the binding of key k in an association list (Python dict lookup). -/
def findKey {α β : Type} [DecidableEq α] (k : α) :
    List (α × β) → Option β
  | [] => none
  | p :: ps => if p.1 = k then some p.2 else findKey k ps

/- ### Node scheduler (NodeSchedulerImpl) -/

/-- An entry of the SortedList of scheduled events: (time, tag); the tag is
the empty string for untagged entries. -/
abbrev Entry := Time × String

/-- The lexicographic order used by the Python SortedList on (datetime, str)
tuples. -/
def entryLe (a b : Entry) : Prop :=
  a.1 < b.1 ∨ (a.1 = b.1 ∧ a.2 ≤ b.2)

instance (a b : Entry) : Decidable (entryLe a b) := by
  unfold entryLe; infer_instance

/-- SortedList.add: insert the entry before the first entry it precedes. -/
def slAdd (e : Entry) : List Entry → List Entry
  | [] => [e]
  | x :: xs => if entryLe e x then e :: x :: xs else x :: slAdd e xs

/-- SortedList.remove: remove the first occurrence of exactly this entry and
raise ValueError when the entry is absent. -/
def slRemove (e : Entry) : List Entry → Except String (List Entry)
  | [] => .error "ValueError: entry not in sorted list"
  | x :: xs =>
    if x = e then .ok xs
    else
      match slRemove e xs with
      | .ok ys => .ok (x :: ys)
      | .error m => .error m

/-- State of NodeSchedulerImpl: the sorted event list _scheduled_events and the
_tags dict.  The Python dict is keyed by the tag argument itself, which may be
None, hence the Option String key. -/
structure SchedState where
  events : List Entry
  tags : List (Option String × Time)
  deriving DecidableEq

/-- NodeSchedulerImpl.next_scheduled_time: head time of the sorted event list,
MIN_DT when no event is scheduled. -/
def nextScheduledTime (s : SchedState) : Time :=
  match s.events with
  | [] => MIN_DT
  | e :: _ => e.1

/-- NodeSchedulerImpl.is_scheduled_now: a head event exists and its time equals
the current engine time. -/
def isScheduledNow (now : Time) (s : SchedState) : Bool :=
  match s.events with
  | [] => false
  | e :: _ => e.1 == now

/-- The part of NodeSchedulerImpl.schedule after the tag-removal step: when
the new time is after the current engine time, record the tag, insert the
event and notify the graph when the head time dropped; otherwise leave the
events as they stand after the removal step. -/
def scheduleAfterRemove (now : Time) (tags : List (Option String × Time))
    (whenT : Time) (tag : Option String) (events : List Entry) :
    SchedState × Option Time :=
  if now < whenT then
    let tags2 := upsert tag whenT tags
    let currentFirst := match events with | [] => MAX_DT | e :: _ => e.1
    let events2 := slAdd (whenT, tag.getD "") events
    let next := nextScheduledTime ⟨events2, tags2⟩
    let notif := if next < currentFirst then some next else none
    (⟨events2, tags2⟩, notif)
  else
    (⟨events, tags⟩, none)

/-- NodeSchedulerImpl.schedule(when, tag): when the tag is present in _tags,
first remove its recorded entry from the event list (SortedList.remove raises
ValueError when that entry is absent, which propagates), then proceed with
scheduleAfterRemove.  Returns the new state together with the time passed to
graph.schedule_node when the head changed (none when the graph was not
notified). -/
def schedule (now : Time) (s : SchedState) (whenT : Time) (tag : Option String) :
    Except String (SchedState × Option Time) :=
  match tag with
  | none => .ok (scheduleAfterRemove now s.tags whenT none s.events)
  | some t =>
    match findKey (some t) s.tags with
    | none => .ok (scheduleAfterRemove now s.tags whenT (some t) s.events)
    | some old =>
      match slRemove (old, t) s.events with
      | .error m => .error m
      | .ok events => .ok (scheduleAfterRemove now s.tags whenT (some t) events)

/-- NodeSchedulerImpl.un_schedule(tag): drop the tagged entry when the tag is
present, otherwise (untagged) pop the head. -/
def unSchedule (s : SchedState) (tag : Option String) :
    Except String SchedState :=
  match tag with
  | some t =>
    match findKey (some t) s.tags with
    | some old =>
      match slRemove (old, t) s.events with
      | .error m => .error m
      | .ok ev => .ok ⟨ev, eraseKey (some t) s.tags⟩
    | none => .ok s
  | none =>
    match s.events with
    | [] => .ok s
    | _ :: rest => .ok ⟨rest, s.tags⟩

/-- NodeSchedulerImpl.advance: pop all entries at or before the current engine
time; when entries remain, notify the graph with the new head time. -/
def advance (now : Time) (s : SchedState) : SchedState × Option Time :=
  let events := s.events.dropWhile (fun e => e.1 ≤ now)
  (⟨events, s.tags⟩, match events with | [] => none | e :: _ => some e.1)

/-- The entries of a scheduler that carry a given tag. -/
def entriesFor (tag : String) (s : SchedState) : List Entry :=
  s.events.filter (fun e => e.2 == tag)

/- ### Compute node evaluation (NodeImpl.eval) -/

/-- Observable state of one time-series input of a node at the current engine
time: valid (has it ever received a value) and modified (did it change now). -/
structure TSInputVal where
  valid : Bool
  modified : Bool
  deriving DecidableEq

/-- The part of NodeSignature that NodeImpl.eval consults: the time-series
input names and the optional valid_inputs subset. -/
structure NodeSig where
  timeSeriesInputs : List String
  validInputs : Option (List String)

/-- The set V of input names whose validity gates evaluation:
valid_inputs when given, otherwise all time-series input names. -/
def NodeSig.validArgs (sig : NodeSig) : List String :=
  sig.validInputs.getD sig.timeSeriesInputs

/-- A compute node as NodeImpl.eval sees it.  The input bundle is a total map
from input names to their current state; evalFnOut is the value the user
eval_fn returns when invoked (none models a null return). -/
structure ComputeNode where
  signature : NodeSig
  input : Option (String → TSInputVal)
  scheduler : Option SchedState
  evalFnOut : Option Val

/-- The outcome of one NodeImpl.eval call: whether the user eval_fn was
invoked, the value passed to output.apply_result (none when nothing was
applied), and whether scheduler.advance ran. -/
structure EvalOutcome where
  evalFnCalled : Bool
  applied : Option Val
  advanced : Bool
  deriving DecidableEq

/-- NodeImpl.eval.  Mirrors the source control flow: compute scheduled from
the lazily created scheduler; when an input bundle exists, return early
unless all inputs in V are valid; when a scheduler exists and the node was
not scheduled now, return early unless some input in V is valid (the source
tests valid here, not modified); otherwise call eval_fn, apply a non-null
result, and advance the scheduler when the node was scheduled now. -/
def nodeEval (now : Time) (n : ComputeNode) : EvalOutcome :=
  let scheduled :=
    match n.scheduler with
    | none => false
    | some s => isScheduledNow now s
  let run : EvalOutcome := ⟨true, n.evalFnOut, scheduled⟩
  match n.input with
  | none => run
  | some inp =>
    let args := n.signature.validArgs
    if !(args.all fun k => (inp k).valid) then ⟨false, none, false⟩
    else
      match n.scheduler with
      | none => run
      | some _ =>
        if !scheduled && !(args.any fun k => (inp k).valid) then
          ⟨false, none, false⟩
        else run

/- ### Pull-generator node (GeneratorNodeImpl) -/

/-- One pair yielded by the user generator; next(generator, (None, None))
presents exhaustion as (None, None), and a yielded pair may itself hold
None components. -/
abbrev GenPair := Option Time × Option Val

/-- The observable outcome of one GeneratorNodeImpl.eval call: the values
passed to output.apply_result in order, the time passed to
graph.schedule_node (none when not rescheduled), the remaining generator and
the cached next_value. -/
structure GenOut where
  applied : List Val
  sched : Option Time
  genRest : List GenPair
  nextValue : Option Val
  deriving DecidableEq

/-- GeneratorNodeImpl.eval, with the generator modelled as the list of pairs
it has yet to yield and next_value as the cached value.  A pair whose time is
due (time ≤ now) is applied at once, the cache is dropped and eval re-runs on
the rest; otherwise any cached value is applied, and a complete future pair
is cached and scheduled at its time. -/
def genEval (now : Time) (g : List GenPair) (nv : Option Val) : GenOut :=
  match g with
  | (some t, some v) :: rest =>
    if t ≤ now then
      let r := genEval now rest none
      { r with applied := v :: r.applied }
    else
      ⟨nv.toList, some t, rest, some v⟩
  | _ :: rest => ⟨nv.toList, none, rest, none⟩
  | [] => ⟨nv.toList, none, [], none⟩

/-- GeneratorNodeImpl.start: materialise the generator (the full pair list),
clear the cache, and schedule the node at the current engine time. -/
def genStart (now : Time) (pairs : List GenPair) :
    (List GenPair × Option Val) × Time :=
  ((pairs, none), now)

/- ### Push-queue source (_SenderReceiverState, PythonPushQueueNodeImpl) -/

/-- The _SenderReceiverState of a push-source node: the queue, the stopped
flag, and the context flag set by mark_push_has_pending_values. -/
structure SenderReceiverState where
  queue : List Val
  stopped : Bool
  pushPending : Bool
  deriving DecidableEq

/-- _SenderReceiverState.enqueue: raise when stopped (before touching the
queue or the context flag), otherwise append the value and set the context
pending-push flag.  The returned state is the post-call state; the error
component is the RuntimeError message when one was raised. -/
def enqueue (v : Val) (s : SenderReceiverState) :
    SenderReceiverState × Option String :=
  if s.stopped then
    (s, some "RuntimeError: Cannot enqueue into a stopped receiver")
  else
    ({ s with queue := s.queue ++ [v], pushPending := true }, none)

/-- PythonPushQueueNodeImpl.stop: mark the receiver stopped.  (The node also
drops its own pointer to the receiver; external senders keep theirs.) -/
def pushQueueStop (s : SenderReceiverState) : SenderReceiverState :=
  { s with stopped := true }

/- ### TSD output (PythonTimeSeriesDictOutput) -/

/-- A child scalar output of a TSD; a fresh child has no value yet. -/
structure ChildOut where
  value : Option Val
  deriving DecidableEq

/-- State of a PythonTimeSeriesDictOutput: the child mapping _ts_values, the
peer key-set membership, the per-evaluation bookkeeping _removed_items and
_added_keys, whether _clear_key_changes has been registered as an
after-evaluation notification, and the key-observer notifications issued. -/
structure TSDOut where
  tsValues : List (Int × ChildOut)
  keySet : List Int
  removedItems : List (Int × ChildOut)
  addedKeys : List Int
  clearRegistered : Bool
  keyAddedEvents : List Int
  keyRemovedEvents : List Int
  deriving DecidableEq

/-- PythonTimeSeriesDictOutput.__delitem__: raise KeyError when the key is
absent, otherwise pop the child into _removed_items, remove the key from the
key-set and notify the key observers.  (No after-evaluation notification is
registered here.) -/
def tsdDelItem (k : Int) (s : TSDOut) : Except String TSDOut :=
  match findKey k s.tsValues with
  | none => .error "KeyError: TSD key does not exist"
  | some child =>
    .ok { s with
      tsValues := eraseKey k s.tsValues,
      removedItems := upsert k child s.removedItems,
      keySet := s.keySet.erase k,
      keyRemovedEvents := s.keyRemovedEvents ++ [k] }

/-- PythonTimeSeriesDictOutput._create: add the key to the key-set, create a
fresh child output and notify the key observers.  (The source does not touch
_added_keys here.) -/
def tsdCreate (k : Int) (s : TSDOut) : TSDOut :=
  { s with
    keySet := if k ∈ s.keySet then s.keySet else s.keySet ++ [k],
    tsValues := upsert k ⟨none⟩ s.tsValues,
    keyAddedEvents := s.keyAddedEvents ++ [k] }

/-- Modelled from the spec: get_or_create(k) of the collection base class
(its module is absent from the sources) creates the child via the subclass
_create when the key is absent, then returns the child. -/
def tsdGetOrCreate (k : Int) (s : TSDOut) : TSDOut :=
  if (findKey k s.tsValues).isSome then s else tsdCreate k s

/-- get_or_create(k).value = v: ensure the child exists and set its value. -/
def tsdSetChild (k : Int) (v : Val) (s : TSDOut) : TSDOut :=
  let s1 := tsdGetOrCreate k s
  { s1 with tsValues := upsert k ⟨some v⟩ s1.tsValues }

/-- An entry of the mapping assigned to a TSD value: a plain value or one of
the distinguished REMOVE / REMOVE_IF_EXISTS markers. -/
inductive TSDEntry where
  | val (v : Val)
  | remove
  | removeIfExists
  deriving DecidableEq

/-- The per-key loop of the PythonTimeSeriesDictOutput.value setter:
REMOVE_IF_EXISTS for an absent key is skipped, REMOVE and REMOVE_IF_EXISTS
delete the key (KeyError propagates), anything else goes through
get_or_create(k).value = v. -/
def tsdSetItems (s : TSDOut) : List (Int × TSDEntry) → Except String TSDOut
  | [] => .ok s
  | (k, .remove) :: rest =>
    match tsdDelItem k s with
    | .error m => .error m
    | .ok s1 => tsdSetItems s1 rest
  | (k, .removeIfExists) :: rest =>
    if (findKey k s.tsValues).isSome then
      match tsdDelItem k s with
      | .error m => .error m
      | .ok s1 => tsdSetItems s1 rest
    else tsdSetItems s rest
  | (k, .val v) :: rest => tsdSetItems (tsdSetChild k v s) rest

/-- The PythonTimeSeriesDictOutput.value setter: process every entry of the
assigned mapping, then, when _removed_items or _added_keys is non-empty,
register _clear_key_changes as an after-evaluation notification. -/
def tsdSetValue (s : TSDOut) (m : List (Int × TSDEntry)) :
    Except String TSDOut :=
  match tsdSetItems s m with
  | .error e => .error e
  | .ok s1 =>
    if s1.removedItems ≠ [] ∨ s1.addedKeys ≠ [] then
      .ok { s1 with clearRegistered := true }
    else
      .ok s1

/-- Modelled from the spec: at drain end the engine invokes the registered
after-evaluation notifications and clears them (the engine module is absent
from the sources).  For a TSD output the only such notification is
_clear_key_changes, which empties _removed_items and _added_keys. -/
def runAfterEvaluation (s : TSDOut) : TSDOut :=
  if s.clearRegistered then
    { s with removedItems := [], addedKeys := [], clearRegistered := false }
  else s

/- ### Reference values (PythonTimeSeriesReference) -/

/-- The static type the reference constructor records in self.tp: the runtime
class of either a TimeSeriesOutput or a TimeSeriesInput, modelled by the tag
of the class hierarchy plus a shape identifier.  Shapes stand for the
concrete time-series classes (TS of int, TSL, ...). -/
inductive RefTp where
  | outTp (shape : Nat)
  | inTp (shape : Nat)
  deriving DecidableEq

/-- A reference value.  invalid is the empty handle; peer points at a single
concrete output (has_peer true); comp carries child references (has_peer
false).  tp is None for references built with from_items and for the empty
handle. -/
inductive Ref where
  | invalid
  | peer (tp : Option RefTp) (out : Nat)
  | comp (tp : Option RefTp) (items : List Ref)

/-- The guard of the bind_input type check:
tp and not issubclass(tp, TimeSeriesOutput) and not isinstance(ts_input, tp).
A recorded output class is exempt (issubclass), a missing tp is falsy, and an
input is an instance of a recorded input class exactly when the shapes
agree. -/
def tpCheckFails (tp : Option RefTp) (shape : Nat) : Bool :=
  match tp with
  | some (.inTp s) => shape != s
  | _ => false

/-- Whether a Python isinstance check of an input object against a recorded
reference class succeeds: an input is an instance of a recorded input class
exactly when the shapes agree, and never an instance of an output class. -/
def refTpInstance (tp : RefTp) (shape : Nat) : Bool :=
  match tp with
  | .inTp s => shape == s
  | .outTp _ => false

/-- A time-series input as bind_input sees it: an identity, a static shape
and (for composite inputs) child inputs. -/
inductive TSInput where
  | mk (id : Nat) (shape : Nat) (children : List TSInput)

/-- The identity of an input. -/
def TSInput.id : TSInput → Nat
  | .mk i _ _ => i

/-- The static shape of an input. -/
def TSInput.shape : TSInput → Nat
  | .mk _ s _ => s

/-- The child inputs of a composite input. -/
def TSInput.children : TSInput → List TSInput
  | .mk _ _ c => c

/-- One binding performed by bind_input: the target input identity and the
output it was bound to (none models ts_input.bind_output(None)). -/
abbrev BindEvent := Nat × Option Nat

mutual

/-- PythonTimeSeriesReference.bind_input: an invalid reference unbinds the
input; a reference recorded with a non-output type that the input is not an
instance of raises TypeError; a peer reference binds the input to its output;
a composite reference zips the child inputs with the child references and
binds element-wise. -/
def bindInput : Ref → TSInput → Except String (List BindEvent)
  | .invalid, i => .ok [(i.id, none)]
  | .peer tp out, i =>
    if tpCheckFails tp i.shape then
      .error "TypeError: Cannot bind reference to input of mismatched type"
    else .ok [(i.id, some out)]
  | .comp tp items, i =>
    if tpCheckFails tp i.shape then
      .error "TypeError: Cannot bind reference to input of mismatched type"
    else bindZip items i.children

/-- The element-wise loop of bind_input on composites; the zip stops at the
shorter sequence and the first raised error propagates. -/
def bindZip : List Ref → List TSInput → Except String (List BindEvent)
  | r :: rs, i :: is => do
    let a ← bindInput r i
    let b ← bindZip rs is
    .ok (a ++ b)
  | _, _ => .ok []

end

/- ### REF output and its reference observers
       (PythonTimeSeriesReferenceOutput) -/

/-- The last-modified time and validity of a concrete (non-REF) output,
supplied as an environment indexed by output identity. -/
structure OutInfo where
  valid : Bool
  lastModifiedTime : Time

/-- Modelled from the spec: a generic bound time-series input (the base input
module is absent from the sources).  It records the bound output, a sample
time, and the started / active flags of its owning node; notified records a
call to owning_node.notify. -/
structure ObsInput where
  id : Nat
  shape : Nat
  boundOut : Option Nat
  sampleTime : Time
  started : Bool
  active : Bool
  notified : Bool

/-- Modelled from the spec: input.bind_output(output).  Binding to None
unbinds; re-binding while the owning node is started and the new output is
valid samples the current engine time and notifies the owning node when the
input is active (mirroring the re-bind sampling the sources perform in
PythonTimeSeriesReferenceInput.bind_output). -/
def ObsInput.bindOutput (now : Time) (env : Nat → OutInfo) (i : ObsInput)
    (o : Option Nat) : ObsInput :=
  match o with
  | none => { i with boundOut := none }
  | some oid =>
    if i.started ∧ (env oid).valid then
      { i with boundOut := some oid, sampleTime := now,
               notified := i.notified || i.active }
    else { i with boundOut := some oid }

/-- Modelled from the spec: the last_modified_time of a bound input is the
later of the last-modified time of the bound output and the sample time of
the input itself; an unbound input reports its sample time. -/
def ObsInput.lastModifiedTime (env : Nat → OutInfo) (i : ObsInput) : Time :=
  match i.boundOut with
  | some oid => max (env oid).lastModifiedTime i.sampleTime
  | none => i.sampleTime

/-- bind_input of a reference applied to one registered reference observer.
The observers tracked by a REF output are bound wholesale (peer references
bind them to the referenced output; an invalid reference unbinds them); they
are modelled as leaf inputs, so the composite zip binds none of their
children. -/
def refBindObs (now : Time) (env : Nat → OutInfo) (r : Ref) (i : ObsInput) :
    Except String ObsInput :=
  match r with
  | .invalid => .ok (i.bindOutput now env none)
  | .peer tp out =>
    if tpCheckFails tp i.shape then
      .error "TypeError: Cannot bind reference to input of mismatched type"
    else .ok (i.bindOutput now env (some out))
  | .comp tp _ =>
    if tpCheckFails tp i.shape then
      .error "TypeError: Cannot bind reference to input of mismatched type"
    else .ok i

/-- The observer loop of the PythonTimeSeriesReferenceOutput.value setter:
bind the stored reference into every registered reference observer in
order. -/
def refBindAll (now : Time) (env : Nat → OutInfo) (r : Ref) :
    List ObsInput → Except String (List ObsInput)
  | [] => .ok []
  | i :: is =>
    match refBindObs now env r i with
    | .error m => .error m
    | .ok i2 =>
      match refBindAll now env r is with
      | .error m => .error m
      | .ok rest => .ok (i2 :: rest)

/-- State of a PythonTimeSeriesReferenceOutput: the stored reference value,
validity, last-modified time and the registered reference observers. -/
structure RefOutput where
  value : Option Ref
  valid : Bool
  lastModifiedTime : Time
  observers : List ObsInput

/-- The PythonTimeSeriesReferenceOutput.value setter: None invalidates;
otherwise store the reference, mark the output modified at the current engine
time (mark_modified of the base output class, modelled from the spec as
recording the current engine time as last-modified and making the output
valid) and then bind the new reference into every registered reference
observer.  The error component carries the TypeError message when the
observer loop raised; the reference is stored and the output marked modified
before the loop runs, as in the source (observers already rebound before a
raise are not tracked in the error case). -/
def refOutSetValue (now : Time) (env : Nat → OutInfo) (s : RefOutput)
    (v : Option Ref) : RefOutput × Option String :=
  match v with
  | none => ({ s with value := none, valid := false }, none)
  | some r =>
    let s1 : RefOutput :=
      { s with value := some r, valid := true, lastModifiedTime := now }
    match refBindAll now env r s1.observers with
    | .error m => (s1, some m)
    | .ok obs => ({ s1 with observers := obs }, none)

/-
  ## Helper lemmas
-/

/-- The head of a list sorted by the event order has the least time. -/
lemma sortedHeadMin (x : Entry) (xs : List Entry)
    (hs : List.Sorted entryLe (x :: xs)) :
    ∀ e ∈ x :: xs, x.1 ≤ e.1 := by
  intro e he
  rcases List.mem_cons.mp he with rfl | hmem
  · exact le_refl _
  · rcases (List.sorted_cons.mp hs).1 e hmem with hlt | ⟨heq, _⟩
    · exact le_of_lt hlt
    · exact le_of_eq heq

/-- The event order is reflexive. -/
lemma entryLe_refl (e : Entry) : entryLe e e := Or.inr ⟨rfl, le_refl _⟩

/-- Removing an entry just inserted by SortedList.add restores the list. -/
lemma slRemove_slAdd (e : Entry) (l : List Entry) :
    slRemove e (slAdd e l) = .ok l := by
  induction l with
  | nil => simp [slAdd, slRemove]
  | cons x xs ih =>
    by_cases h : entryLe e x
    · simp [slAdd, h, slRemove]
    · have hne : x ≠ e := fun hx => h (hx ▸ entryLe_refl e)
      simp [slAdd, h, slRemove, hne, ih]

/-- SortedList.add produces a permutation of pushing the entry in front. -/
lemma slAdd_perm (e : Entry) (l : List Entry) :
    List.Perm (slAdd e l) (e :: l) := by
  induction l with
  | nil => simp [slAdd]
  | cons x xs ih =>
    by_cases h : entryLe e x
    · simp [slAdd, h]
    · simp only [slAdd, if_neg h]
      exact (List.Perm.cons x ih).trans (List.Perm.swap e x xs)

/-- Looking up the key just written by upsert yields the written value. -/
lemma findKey_upsert_self {α β : Type} [DecidableEq α] (k : α) (v : β)
    (l : List (α × β)) : findKey k (upsert k v l) = some v := by
  induction l with
  | nil => simp [upsert, findKey]
  | cons p ps ih =>
    by_cases h : p.1 = k
    · simp [upsert, h, findKey]
    · simp [upsert, h, findKey, ih]

/-- Inserting an entry with a tag into an event list free of that tag leaves
exactly that entry carrying the tag. -/
lemma filter_tag_slAdd (t : Time) (tag : String) (ev : List Entry)
    (h : ev.filter (fun e => e.2 == tag) = []) :
    (slAdd (t, tag) ev).filter (fun e => e.2 == tag) = [(t, tag)] := by
  have hperm := List.Perm.filter (fun e => e.2 == tag) (slAdd_perm (t, tag) ev)
  rw [List.filter_cons] at hperm
  simp only [beq_self_eq_true, if_pos] at hperm
  rw [h] at hperm
  exact List.perm_singleton.mp hperm

/-
  ## Theorems
-/

/-- Claim C1: for a compute node with a time-series input bundle, when some
input named in V (valid_inputs when given, otherwise all time-series input
names) is not valid, NodeImpl.eval returns without calling the user eval_fn,
without applying any result to the output and without advancing the
scheduler. -/
theorem c1_invalid_input_gates_eval (now : Time) (n : ComputeNode)
    (inp : String → TSInputVal) (k : String)
    (hin : n.input = some inp) (hk : k ∈ n.signature.validArgs)
    (hv : (inp k).valid = false) :
    nodeEval now n = ⟨false, none, false⟩ := by
  have hall : (n.signature.validArgs.all fun a => (inp a).valid) = false := by
    cases hb : n.signature.validArgs.all fun a => (inp a).valid
    · rfl
    · have := List.all_eq_true.mp hb k hk
      rw [hv] at this
      cases this
  simp [nodeEval, hin, hall]

/-- Claim C1 witness: a node with one input named a that is not valid skips
its eval_fn. -/
theorem c1_witness :
    nodeEval 0 ⟨⟨["a"], none⟩, some (fun _ => ⟨false, false⟩), none, some 5⟩
      = ⟨false, none, false⟩ :=
  c1_invalid_input_gates_eval 0 _ (fun _ => ⟨false, false⟩) "a" rfl
    (by simp [NodeSig.validArgs]) rfl

/-- Claim C2 (demonstrating the code bug): a compute node whose inputs are all
valid but none modified at the current engine time, and which its scheduler
did not schedule now, still has its eval_fn invoked — the source tests valid
in the not-scheduled guard where the spec (and the source comment) require a
check that something triggered the evaluation, i.e. modified. -/
theorem c2_unmodified_inputs_still_evaluated :
    isScheduledNow 5 ⟨[], []⟩ = false ∧
    (∀ k ∈ (["a"] : List String),
      ((fun _ => (⟨true, false⟩ : TSInputVal)) k).modified = false) ∧
    nodeEval 5 ⟨⟨["a"], none⟩, some (fun _ => ⟨true, false⟩),
        some ⟨[], []⟩, some 1⟩
      = ⟨true, some 1, false⟩ := by
  exact ⟨rfl, fun k _ => rfl, rfl⟩

/-- Claim C4 (demonstrating the code bug): __delitem__ on a TSD output moves
the child into _removed_items but registers no after-evaluation notification,
so after the after-evaluation callbacks of the drain run, _removed_items is
still non-empty, violating the drain-end bookkeeping invariant. -/
theorem c4_delitem_skips_clear :
    tsdDelItem 1 ⟨[(1, ⟨some 7⟩)], [1], [], [], false, [], []⟩
      = .ok ⟨[], [], [(1, ⟨some 7⟩)], [], false, [], [1]⟩ ∧
    (runAfterEvaluation ⟨[], [], [(1, ⟨some 7⟩)], [], false, [], [1]⟩).removedItems
      = [(1, ⟨some 7⟩)] ∧
    (runAfterEvaluation ⟨[], [], [(1, ⟨some 7⟩)], [], false, [], [1]⟩).removedItems
      ≠ [] := by
  refine ⟨rfl, rfl, by decide⟩

/-- Claim C6: for a key absent from a TSD output, direct deletion raises
KeyError, assigning a mapping that sends the key to REMOVE raises KeyError,
and assigning a mapping that sends the key to REMOVE_IF_EXISTS succeeds,
leaving the child mapping unchanged and the key still absent. -/
theorem c6_missing_key (s : TSDOut) (k : Int)
    (h : findKey k s.tsValues = none) :
    tsdDelItem k s = .error "KeyError: TSD key does not exist" ∧
    tsdSetValue s [(k, .remove)] = .error "KeyError: TSD key does not exist" ∧
    (∃ s2, tsdSetValue s [(k, .removeIfExists)] = .ok s2 ∧
      s2.tsValues = s.tsValues ∧ findKey k s2.tsValues = none) := by
  have hdel : tsdDelItem k s = .error "KeyError: TSD key does not exist" := by
    simp [tsdDelItem, h]
  have hitems : tsdSetItems s [(k, .removeIfExists)] = .ok s := by
    simp [tsdSetItems, h]
  refine ⟨hdel, ?_, ?_⟩
  · simp [tsdSetValue, tsdSetItems, hdel]
  · simp only [tsdSetValue, hitems]
    by_cases hc : s.removedItems ≠ [] ∨ s.addedKeys ≠ []
    · exact ⟨{ s with clearRegistered := true }, by rw [if_pos hc], rfl, h⟩
    · exact ⟨s, by rw [if_neg hc], rfl, h⟩

/-- Claim C6 witness: the three behaviours at the empty TSD output and
key 5. -/
theorem c6_witness :
    tsdDelItem 5 ⟨[], [], [], [], false, [], []⟩
      = .error "KeyError: TSD key does not exist" ∧
    tsdSetValue ⟨[], [], [], [], false, [], []⟩ [(5, .remove)]
      = .error "KeyError: TSD key does not exist" ∧
    (∃ s2, tsdSetValue ⟨[], [], [], [], false, [], []⟩ [(5, .removeIfExists)]
        = .ok s2 ∧
      s2.tsValues = (⟨[], [], [], [], false, [], []⟩ : TSDOut).tsValues ∧
      findKey 5 s2.tsValues = none) :=
  c6_missing_key ⟨[], [], [], [], false, [], []⟩ 5 rfl

/-- Claim C7: after the push-queue node stop marks the receiver stopped,
every enqueue raises and leaves the queue and the pending-push flag
untouched; an enqueue before stop appends the value and sets the context
pending-push flag. -/
theorem c7_enqueue_after_stop (s : SenderReceiverState) (v : Val) :
    enqueue v (pushQueueStop s)
      = (pushQueueStop s,
         some "RuntimeError: Cannot enqueue into a stopped receiver") ∧
    (pushQueueStop s).queue = s.queue ∧
    (pushQueueStop s).pushPending = s.pushPending ∧
    (s.stopped = false →
      enqueue v s
        = ({ s with queue := s.queue ++ [v], pushPending := true }, none)) := by
  refine ⟨?_, rfl, rfl, ?_⟩
  · simp [enqueue, pushQueueStop]
  · intro h; simp [enqueue, h]

/-- Claim C7 witness: enqueue of 7 fails on a stopped fresh receiver and
succeeds on a running one. -/
theorem c7_witness :
    enqueue 7 (pushQueueStop ⟨[], false, false⟩)
      = (pushQueueStop ⟨[], false, false⟩,
         some "RuntimeError: Cannot enqueue into a stopped receiver") ∧
    enqueue 7 ⟨[], false, false⟩ = (⟨[7], false, true⟩, none) := by
  refine ⟨(c7_enqueue_after_stop ⟨[], false, false⟩ 7).1, ?_⟩
  have h := (c7_enqueue_after_stop ⟨[], false, false⟩ 7).2.2.2 rfl
  simpa using h

/-- Claim C10: next_scheduled_time of an empty node scheduler is the MIN_DT
sentinel, which lies strictly before the MAX_DT sentinel; for a non-empty
scheduler it is the earliest scheduled entry time. -/
theorem c10_next_scheduled_time (s : SchedState)
    (hs : List.Sorted entryLe s.events) :
    (s.events = [] → nextScheduledTime s = MIN_DT) ∧
    MIN_DT < MAX_DT ∧
    (∀ e ∈ s.events, nextScheduledTime s ≤ e.1) ∧
    (s.events ≠ [] → ∃ e ∈ s.events, nextScheduledTime s = e.1) := by
  refine ⟨?_, by norm_num [MIN_DT, MAX_DT], ?_, ?_⟩
  · intro h
    unfold nextScheduledTime
    rw [h]
  · intro e he
    cases hev : s.events with
    | nil => rw [hev] at he; cases he
    | cons x xs =>
      rw [hev] at he hs
      have hnext : nextScheduledTime s = x.1 := by
        unfold nextScheduledTime; rw [hev]
      rw [hnext]
      exact sortedHeadMin x xs hs e he
  · intro h
    cases hev : s.events with
    | nil => exact absurd hev h
    | cons x xs =>
      refine ⟨x, List.mem_cons_self x xs, ?_⟩
      unfold nextScheduledTime; rw [hev]

/-- Claim C10 witness: a scheduler holding entries at times 2 and 4 reports 2,
and the sentinel facts hold. -/
theorem c10_witness :
    ((⟨[(2, ""), (4, "")], []⟩ : SchedState).events = []
      → nextScheduledTime ⟨[(2, ""), (4, "")], []⟩ = MIN_DT) ∧
    MIN_DT < MAX_DT ∧
    (∀ e ∈ (⟨[(2, ""), (4, "")], []⟩ : SchedState).events,
      nextScheduledTime ⟨[(2, ""), (4, "")], []⟩ ≤ e.1) ∧
    ((⟨[(2, ""), (4, "")], []⟩ : SchedState).events ≠ []
      → ∃ e ∈ (⟨[(2, ""), (4, "")], []⟩ : SchedState).events,
          nextScheduledTime ⟨[(2, ""), (4, "")], []⟩ = e.1) :=
  c10_next_scheduled_time ⟨[(2, ""), (4, "")], []⟩ (by decide)

/-- Claim C3 counterexample: with current engine time 5, scheduling the tag a
at 6 and then at 3 leaves no entry for the tag at all (the second call removes
the first entry and, because 3 is not after the current engine time, adds
nothing), refuting exactly-one-entry-at-t2 for arbitrary t2. -/
theorem c3_counterexample :
    schedule 5 ⟨[], []⟩ 6 (some "a")
      = .ok (⟨[(6, "a")], [(some "a", 6)]⟩, some 6) ∧
    schedule 5 ⟨[(6, "a")], [(some "a", 6)]⟩ 3 (some "a")
      = .ok (⟨[], [(some "a", 6)]⟩, none) ∧
    entriesFor "a" ⟨[], [(some "a", 6)]⟩ = [] ∧
    entriesFor "a" ⟨[], [(some "a", 6)]⟩ ≠ [(3, "a")] := by
  refine ⟨rfl, rfl, rfl, by decide⟩

/-- Claim C3 (amended): for a scheduler holding no entry for the tag, calling
schedule(t1, tag) and then schedule(t2, tag) with t2 after the current engine
time leaves exactly one scheduled entry carrying that tag, and its time is
t2. -/
theorem c3_schedule_tag_replace (now t1 t2 : Time) (tag : String)
    (s : SchedState)
    (htag : findKey (some tag) s.tags = none)
    (hev : entriesFor tag s = [])
    (h2 : now < t2) :
    ∃ p1 p2,
      schedule now s t1 (some tag) = .ok p1 ∧
      schedule now p1.1 t2 (some tag) = .ok p2 ∧
      entriesFor tag p2.1 = [(t2, tag)] := by
  have hfilter := filter_tag_slAdd t2 tag s.events hev
  by_cases h1 : now < t1
  · -- first call inserts (t1, tag); second call removes it and inserts
    -- (t2, tag)
    have e1 : schedule now s t1 (some tag)
        = .ok (scheduleAfterRemove now s.tags t1 (some tag) s.events) := by
      simp [schedule, htag]
    have hr1 : (scheduleAfterRemove now s.tags t1 (some tag) s.events).1
        = ⟨slAdd (t1, tag) s.events, upsert (some tag) t1 s.tags⟩ := by
      simp [scheduleAfterRemove, h1]
    have e2 : schedule now
          (scheduleAfterRemove now s.tags t1 (some tag) s.events).1 t2
          (some tag)
        = .ok (scheduleAfterRemove now (upsert (some tag) t1 s.tags) t2
            (some tag) s.events) := by
      rw [hr1]
      simp [schedule, findKey_upsert_self, slRemove_slAdd]
    have hr2 : (scheduleAfterRemove now (upsert (some tag) t1 s.tags) t2
          (some tag) s.events).1
        = ⟨slAdd (t2, tag) s.events,
           upsert (some tag) t2 (upsert (some tag) t1 s.tags)⟩ := by
      simp [scheduleAfterRemove, h2]
    refine ⟨_, _, e1, e2, ?_⟩
    rw [hr2]
    exact hfilter
  · -- first call is a no-op; second call inserts (t2, tag)
    have e1 : schedule now s t1 (some tag)
        = .ok (scheduleAfterRemove now s.tags t1 (some tag) s.events) := by
      simp [schedule, htag]
    have hr1 : (scheduleAfterRemove now s.tags t1 (some tag) s.events).1
        = ⟨s.events, s.tags⟩ := by
      simp [scheduleAfterRemove, h1]
    have e2 : schedule now
          (scheduleAfterRemove now s.tags t1 (some tag) s.events).1 t2
          (some tag)
        = .ok (scheduleAfterRemove now s.tags t2 (some tag) s.events) := by
      rw [hr1]
      simp [schedule, htag]
    have hr2 : (scheduleAfterRemove now s.tags t2 (some tag) s.events).1
        = ⟨slAdd (t2, tag) s.events, upsert (some tag) t2 s.tags⟩ := by
      simp [scheduleAfterRemove, h2]
    refine ⟨_, _, e1, e2, ?_⟩
    rw [hr2]
    exact hfilter

/-- Claim C3 witness: from an empty scheduler at engine time 0, scheduling
tag x at 5 and then at 3 leaves exactly the entry (3, x). -/
theorem c3_witness :
    ∃ p1 p2,
      schedule 0 ⟨[], []⟩ 5 (some "x") = .ok p1 ∧
      schedule 0 p1.1 3 (some "x") = .ok p2 ∧
      entriesFor "x" p2.1 = [(3, "x")] :=
  c3_schedule_tag_replace 0 5 3 "x" ⟨[], []⟩ rfl rfl (by decide)

/-- Claim C8 counterexample: at engine time 3 the generator yields (5, 10),
so 10 is cached and the node scheduled at 5; when instant 5 is evaluated the
generator yields (5, 20), whose time is due, so 20 is applied and the cached
10 is dropped without ever being applied — refuting that the cached value is
always applied at the scheduled instant. -/
theorem c8_counterexample :
    genEval 3 [(some 5, some 10), (some 5, some 20)] none
      = ⟨[], some 5, [(some 5, some 20)], some 10⟩ ∧
    genEval 5 [(some 5, some 20)] (some 10)
      = ⟨[20], none, [], none⟩ ∧
    (10 : Val) ∉ (genEval 5 [(some 5, some 20)] (some 10)).applied := by
  refine ⟨rfl, rfl, by decide⟩

/-- Claim C8 (amended): on start the generator node schedules itself at the
current engine time; an eval that pulls a pair whose time is due (time ≤ now)
applies its value at once, discards any cached value and re-runs to pre-fetch
from the remaining pairs; an eval that pulls a future pair applies the cached
value, caches the new value and schedules the node at the time of the pair —
so the cached value is applied at its scheduled instant provided the pair
pulled then is exhausted, incomplete or not yet due. -/
theorem c8_generator_eval (now : Time) (nv : Option Val) (t : Time) (v : Val)
    (rest pairs : List GenPair) :
    genStart now pairs = ((pairs, none), now) ∧
    (t ≤ now →
      genEval now ((some t, some v) :: rest) nv
        = { genEval now rest none with
            applied := v :: (genEval now rest none).applied }) ∧
    (now < t →
      genEval now ((some t, some v) :: rest) nv
        = ⟨nv.toList, some t, rest, some v⟩) ∧
    genEval now [] nv = ⟨nv.toList, none, [], none⟩ := by
  refine ⟨rfl, ?_, ?_, rfl⟩
  · intro h
    simp [genEval, h]
  · intro h
    have hn : ¬ t ≤ now := Nat.not_le.mpr h
    simp [genEval, hn]

/-- Claim C8 witness: at engine time 5 a due pair (3, 1) is applied at once
and the cache of 9 dropped, a future pair (7, 2) applies the cached 9 and
schedules 7, and start schedules at the current time. -/
theorem c8_witness :
    genStart 5 [] = (([], none), 5) ∧
    genEval 5 [(some 3, some 1)] (some 9)
      = { genEval 5 [] none with applied := 1 :: (genEval 5 [] none).applied } ∧
    genEval 5 [(some 7, some 2)] (some 9) = ⟨[9], some 7, [], some 2⟩ := by
  refine ⟨(c8_generator_eval 5 none 3 1 [] []).1, ?_, ?_⟩
  · exact (c8_generator_eval 5 (some 9) 3 1 [] []).2.1 (by decide)
  · exact (c8_generator_eval 5 (some 9) 7 2 [] []).2.2.1 (by decide)

/-- Claim C9 counterexample: a peer reference constructed from an output
records an output class as its static type; an input is not an instance of an
output class, yet bind_input performs no type check for such references and
binds the mismatched input to the referenced output instead of raising. -/
theorem c9_counterexample :
    refTpInstance (.outTp 0) 99 = false ∧
    bindInput (.peer (some (.outTp 0)) 42) (.mk 1 99 [])
      = .ok [(1, some 42)] := by
  exact ⟨rfl, rfl⟩

/-- Claim C9 (amended): the bind-time type check applies exactly to
references whose recorded static type is an input class (recorded when the
reference was constructed from an input): binding such a reference to an
input of a different shape raises TypeError and binds nothing, and binding
it to an input of the matching shape succeeds; references recorded with an
output class (or with no recorded type) skip the check. -/
theorem c9_bind_type_check (s out : Nat) (i j : TSInput) (items : List Ref)
    (h : i.shape ≠ s) (hj : j.shape = s) :
    bindInput (.peer (some (.inTp s)) out) i
      = .error "TypeError: Cannot bind reference to input of mismatched type" ∧
    bindInput (.comp (some (.inTp s)) items) i
      = .error "TypeError: Cannot bind reference to input of mismatched type" ∧
    bindInput (.peer (some (.inTp s)) out) j = .ok [(j.id, some out)] := by
  have hchk : tpCheckFails (some (.inTp s)) i.shape = true := by
    simp [tpCheckFails, h]
  have hchk2 : tpCheckFails (some (.inTp s)) j.shape = false := by
    simp [tpCheckFails, hj]
  refine ⟨?_, ?_, ?_⟩
  · simp [bindInput, hchk]
  · simp [bindInput, hchk]
  · simp [bindInput, hchk2]

/-- Claim C9 witness: a reference recorded with input shape 5 rejects an input
of shape 1 and binds an input of shape 5. -/
theorem c9_witness :
    bindInput (.peer (some (.inTp 5)) 9) (.mk 0 1 [])
      = .error "TypeError: Cannot bind reference to input of mismatched type" ∧
    bindInput (.comp (some (.inTp 5)) []) (.mk 0 1 [])
      = .error "TypeError: Cannot bind reference to input of mismatched type" ∧
    bindInput (.peer (some (.inTp 5)) 9) (.mk 2 5 []) = .ok [(2, some 9)] :=
  c9_bind_type_check 5 9 (.mk 0 1 []) (.mk 2 5 []) [] (by decide) rfl

/-- Binding a peer reference into a list of started observers succeeds and
leaves every observer bound to the referenced output with last-modified time
equal to the current engine time. -/
lemma refBindAll_peer (now : Time) (env : Nat → OutInfo) (tp : Option RefTp)
    (out : Nat) (obs : List ObsInput)
    (hobs : ∀ i ∈ obs, tpCheckFails tp i.shape = false ∧ i.started = true)
    (hvalid : (env out).valid = true)
    (hlmt : (env out).lastModifiedTime ≤ now) :
    ∃ obs2, refBindAll now env (.peer tp out) obs = .ok obs2 ∧
      obs2.length = obs.length ∧
      ∀ j ∈ obs2, j.boundOut = some out ∧
        ObsInput.lastModifiedTime env j = now := by
  induction obs with
  | nil => exact ⟨[], rfl, rfl, by intro j hj; cases hj⟩
  | cons i is ih =>
    obtain ⟨hchk, hstart⟩ := hobs i (List.mem_cons_self i is)
    obtain ⟨is2, his2, hlen, hall⟩ :=
      ih (fun a ha => hobs a (List.mem_cons_of_mem i ha))
    have hbind : refBindObs now env (.peer tp out) i
        = .ok (i.bindOutput now env (some out)) := by
      simp [refBindObs, hchk]
    have hcond : i.started ∧ (env out).valid := by
      rw [hstart, hvalid]; exact ⟨rfl, rfl⟩
    have hupd : i.bindOutput now env (some out)
        = { i with boundOut := some out, sampleTime := now,
                   notified := i.notified || i.active } := by
      simp [ObsInput.bindOutput, hcond]
    refine ⟨i.bindOutput now env (some out) :: is2, ?_, ?_, ?_⟩
    · simp [refBindAll, hbind, his2]
    · simp [hlen]
    · intro j hj
      rcases List.mem_cons.mp hj with rfl | hj2
      · rw [hupd]
        refine ⟨rfl, ?_⟩
        simp [ObsInput.lastModifiedTime, Nat.max_eq_right hlmt]
      · exact hall j hj2

/-- Claim C5: assigning a valid peer reference r to a REF output stores r,
marks the output modified at the current engine time, and re-binds every
registered reference observer to the referenced concrete output, so that
(for started observers, a valid referenced output whose last-modified time
does not lie in the future, and no bind-time type mismatch) the
last_modified_time of every observer becomes the current engine time. -/
theorem c5_ref_rebind (now : Time) (env : Nat → OutInfo) (s : RefOutput)
    (tp : Option RefTp) (out : Nat)
    (hobs : ∀ i ∈ s.observers,
      tpCheckFails tp i.shape = false ∧ i.started = true)
    (hvalid : (env out).valid = true)
    (hlmt : (env out).lastModifiedTime ≤ now) :
    ∃ s2, refOutSetValue now env s (some (.peer tp out)) = (s2, none) ∧
      s2.value = some (.peer tp out) ∧
      s2.valid = true ∧
      s2.lastModifiedTime = now ∧
      s2.observers.length = s.observers.length ∧
      ∀ j ∈ s2.observers, j.boundOut = some out ∧
        ObsInput.lastModifiedTime env j = now := by
  obtain ⟨obs2, hbind, hlen, hall⟩ :=
    refBindAll_peer now env tp out s.observers hobs hvalid hlmt
  refine ⟨⟨some (.peer tp out), true, now, obs2⟩, ?_, rfl, rfl, rfl,
          hlen, hall⟩
  simp [refOutSetValue, hbind]

/-- Claim C5 witness: re-binding a REF output carrying one started observer to
concrete output 7 at engine time 5 rebinds the observer and stamps its
last-modified time to 5. -/
theorem c5_witness :
    ∃ s2, refOutSetValue 5 (fun _ => ⟨true, 2⟩)
        ⟨none, false, 0, [⟨1, 0, none, 0, true, true, false⟩]⟩
        (some (.peer (some (.outTp 3)) 7)) = (s2, none) ∧
      s2.value = some (.peer (some (.outTp 3)) 7) ∧
      s2.valid = true ∧
      s2.lastModifiedTime = 5 ∧
      s2.observers.length
        = (⟨none, false, 0, [⟨1, 0, none, 0, true, true, false⟩]⟩ :
            RefOutput).observers.length ∧
      ∀ j ∈ s2.observers, j.boundOut = some 7 ∧
        ObsInput.lastModifiedTime (fun _ => ⟨true, 2⟩) j = 5 :=
  c5_ref_rebind 5 (fun _ => ⟨true, 2⟩)
    ⟨none, false, 0, [⟨1, 0, none, 0, true, true, false⟩]⟩
    (some (.outTp 3)) 7
    (by intro i hi; rcases List.mem_cons.mp hi with rfl | h
        · exact ⟨rfl, rfl⟩
        · cases h)
    rfl (by decide)

end HGraph
